import Mathlib

/-!
Shallow embedding of `phishing_detector.py` (PhishStop), the multi-signal URL
risk-scoring engine, together with theorems settling the frozen claims about
its specification.

The embedding follows the Python source function by function.  Python strings
are `String`/`List Char`; Python's `urllib.parse.urlparse` is modelled by
`urlparse` below (scheme/netloc/path/params/query/fragment splitting as in
CPython's `urlsplit`/`urlparse`; the IPv6-bracket `ValueError` path and
character-set validation are not modelled — no input considered here contains
brackets).  The SQLite persistence layer and the network fetch are modelled as
oracles: the blacklist table content and the outcome of `requests.get` are
parameters (`Option String`: `none` means the fetch raised an exception).
All scores are natural numbers, as every weight in the source is a
non-negative integer.
-/

namespace PhishStop

/-! ## Basic string utilities (Python string primitives) -/

/-- Python `needle in hay` (substring containment). -/
def containsSubstring (hay needle : String) : Bool :=
  let h := hay.toList
  let n := needle.toList
  (List.range (h.length + 1)).any fun i => n.isPrefixOf (h.drop i)

/-- Python `str.count(needle)` for the needles used in the source
(`src="http`, `href="http`), which cannot overlap themselves, so the
non-overlapping count used by Python equals the number of starting
positions at which the needle occurs. -/
def countOcc (needle hay : List Char) : Nat :=
  ((List.range (hay.length + 1)).filter fun i => needle.isPrefixOf (hay.drop i)).length

/-- Python `str.lower()` restricted to ASCII (all strings compared by the
source are ASCII; `Char.toLower` lowers exactly the basic latin letters). -/
def lowerStr (s : String) : String :=
  ⟨s.data.map Char.toLower⟩

/-- Python `str.split(sep)` for a one-character separator. -/
def splitOnChar (sep : Char) : List Char → List (List Char)
  | [] => [[]]
  | c :: t =>
    if c = sep then [] :: splitOnChar sep t
    else
      match splitOnChar sep t with
      | h :: r => (c :: h) :: r
      | [] => [[c]]

/-- Python `sep.join(parts)` for a one-character separator. -/
def joinChar (sep : Char) : List (List Char) → List Char
  | [] => []
  | [p] => p
  | p :: ps => p ++ sep :: joinChar sep ps

/-- Split at the first occurrence of `sep`: `some (before, after)` when
`sep` occurs, `none` otherwise (Python `str.split(sep, 1)` / `str.find`). -/
def splitAtFirst (sep : Char) : List Char → Option (List Char × List Char)
  | [] => none
  | c :: t =>
    if c = sep then some ([], t)
    else (splitAtFirst sep t).map fun p => (c :: p.1, p.2)

/-- Split at the last occurrence of `sep` (Python `str.rfind`). -/
def splitAtLast (sep : Char) : List Char → Option (List Char × List Char)
  | [] => none
  | c :: t =>
    match splitAtLast sep t with
    | some p => some (c :: p.1, p.2)
    | none => if c = sep then some ([], t) else none

/-! ## `urllib.parse.urlparse` -/

/-- Characters allowed in a URL scheme after the first (CPython
`scheme_chars`). -/
def schemeChar (c : Char) : Bool :=
  c.isAlpha || c.isDigit || c = '+' || c = '-' || c = '.'

/-- CPython `urlsplit` scheme handling: the part before the first `:` is a
scheme iff it is non-empty, starts with an ASCII letter and consists of
scheme characters; the scheme is lower-cased. -/
def splitScheme (l : List Char) : List Char × List Char :=
  match splitAtFirst ':' l with
  | some (before, after) =>
    (match before with
     | c :: _ =>
       if c.isAlpha && before.all schemeChar
       then (before.map Char.toLower, after)
       else ([], l)
     | [] => ([], l))
  | none => ([], l)

/-- CPython `_splitnetloc`: when the remainder starts with `//`, the netloc
runs until the first `/`, `?` or `#`. -/
def splitNetloc (l : List Char) : List Char × List Char :=
  match l with
  | '/' :: '/' :: rest =>
    (rest.takeWhile (fun c => ¬(c = '/' ∨ c = '?' ∨ c = '#')),
     rest.dropWhile (fun c => ¬(c = '/' ∨ c = '?' ∨ c = '#')))
  | _ => ([], l)

/-- CPython `urlsplit` fragment handling: split at the first `#`. -/
def splitFragment (l : List Char) : List Char × List Char :=
  match splitAtFirst '#' l with
  | some (a, b) => (a, b)
  | none => (l, [])

/-- CPython `urlsplit` query handling: split at the first `?`. -/
def splitQuery (l : List Char) : List Char × List Char :=
  match splitAtFirst '?' l with
  | some (a, b) => (a, b)
  | none => (l, [])

/-- CPython `_splitparams`: parameters are everything after the first `;`
that follows the last `/` (or the first `;` overall when there is no `/`). -/
def splitParams (path : List Char) : List Char × List Char :=
  if path.contains '/' then
    match splitAtLast '/' path with
    | some (pre, post) =>
      (match splitAtFirst ';' post with
       | some (a, b) => (pre ++ '/' :: a, b)
       | none => (path, []))
    | none => (path, [])
  else
    match splitAtFirst ';' path with
    | some (a, b) => (a, b)
    | none => (path, [])

/-- Schemes for which `urlparse` splits parameters (CPython `uses_params`). -/
def uses_params : List String :=
  ["", "ftp", "hdl", "prospero", "http", "imap", "https", "shttp", "rtsp",
   "rtspu", "sip", "sips", "mms", "sftp", "tel"]

/-- Result of `urllib.parse.urlparse`. -/
structure UrlParts where
  scheme : String
  netloc : String
  path : String
  params : String
  query : String
  fragment : String
deriving Repr, DecidableEq

/-- WHATWG C0-control-or-space characters stripped by CPython `urlsplit`. -/
def c0OrSpace (c : Char) : Bool := c ≤ ' '

/-- `urllib.parse.urlparse`.  Follows CPython: strip leading/trailing C0
controls and space, remove tab/CR/LF, split off scheme, netloc, fragment,
query, and (for schemes using parameters) params. -/
def urlparse (url : String) : UrlParts :=
  let l0 := url.toList
  let l1 := ((l0.dropWhile c0OrSpace).reverse.dropWhile c0OrSpace).reverse
  let l := l1.filter fun c => ¬(c = '\t' ∨ c = '\r' ∨ c = '\n')
  let sr := splitScheme l
  let nr := splitNetloc sr.2
  let fr := splitFragment nr.2
  let qr := splitQuery fr.1
  let pp :=
    if uses_params.contains (String.mk sr.1) ∧ qr.1.contains ';'
    then splitParams qr.1 else (qr.1, [])
  { scheme := String.mk sr.1, netloc := String.mk nr.1, path := String.mk pp.1,
    params := String.mk pp.2, query := String.mk qr.2, fragment := String.mk fr.2 }

/-! ## The rule-based "ML model" (`create_rule_based_model`) -/

/-- `create_rule_based_model()['suspicious_keywords']`. -/
def suspicious_keywords : List String :=
  ["login", "signin", "verify", "update", "confirm", "security",
   "account", "bank", "paypal", "amazon", "facebook", "google",
   "secure", "authentication", "validation"]

/-- `create_rule_based_model()['suspicious_tlds']`. -/
def suspicious_tlds : List String :=
  [".tk", ".ml", ".ga", ".cf", ".gq", ".top", ".xyz", ".click",
   ".download", ".work", ".party", ".racing", ".accountant"]

/-- `create_rule_based_model()['legitimate_tlds']`. -/
def legitimate_tlds : List String :=
  [".com", ".org", ".net", ".edu", ".gov", ".mil", ".int"]

/-! ### The four `suspicious_patterns` regexes

The source applies them with `re.search(pattern, url, re.IGNORECASE)`.
Each regex is embedded as a decidable matcher.  `re.IGNORECASE` only affects
the character class `[a-z0-9]`, which therefore also matches `A`–`Z`. -/

/-- Consume `\d+` (one or more ASCII digits, maximal munch — exact here
because every following regex token is a literal `.`, not a digit). -/
def parseDigits1 : List Char → Option (List Char)
  | c :: rest => if c.isDigit then some (rest.dropWhile Char.isDigit) else none
  | [] => none

/-- Consume a literal `.`. -/
def expectDot : List Char → Option (List Char)
  | '.' :: r => some r
  | _ => none

/-- `re.search`: the pattern matches at some starting position. -/
def searchAt (p : List Char → Bool) (l : List Char) : Bool :=
  (List.range (l.length + 1)).any fun i => p (l.drop i)

/-- Regex `\d+\.\d+\.\d+\.\d+` matching at the head of the list. -/
def matchQuadAt (l : List Char) : Bool :=
  (do
    let r ← parseDigits1 l
    let r ← expectDot r
    let r ← parseDigits1 r
    let r ← expectDot r
    let r ← parseDigits1 r
    let r ← expectDot r
    let _ ← parseDigits1 r
    pure ()).isSome

/-- Regex `[-_]{2,}` matching at the head of the list (two suffice for a
search to succeed). -/
def matchHyphUndAt (l : List Char) : Bool :=
  match l with
  | a :: b :: _ => (a = '-' ∨ a = '_') ∧ (b = '-' ∨ b = '_')
  | _ => false

/-- Regex `\.\d+\.` matching at the head of the list. -/
def matchDotDigitsDotAt (l : List Char) : Bool :=
  (do
    let r ← expectDot l
    let r ← parseDigits1 r
    let _ ← expectDot r
    pure ()).isSome

/-- Regex `[a-z0-9]{30,}` under `re.IGNORECASE` matching at the head of the
list (a window of exactly 30 suffices for a search to succeed). -/
def matchAlnumRun30At (l : List Char) : Bool :=
  (l.take 30).length = 30 && (l.take 30).all fun c => c.isAlpha || c.isDigit

/-- `re.search(r'\d+\.\d+\.\d+\.\d+', s, re.IGNORECASE)`. -/
def searchQuad (l : List Char) : Bool := searchAt matchQuadAt l

/-- `re.search(r'[-_]{2,}', s, re.IGNORECASE)`. -/
def searchHyphUnd (l : List Char) : Bool := searchAt matchHyphUndAt l

/-- `re.search(r'\.\d+\.', s, re.IGNORECASE)`. -/
def searchDotDigitsDot (l : List Char) : Bool := searchAt matchDotDigitsDotAt l

/-- `re.search(r'[a-z0-9]{30,}', s, re.IGNORECASE)`. -/
def searchAlnumRun30 (l : List Char) : Bool := searchAt matchAlnumRun30At l

/-- `create_rule_based_model()['suspicious_patterns']`, as matchers, in
source order. -/
def suspicious_patterns : List (List Char → Bool) :=
  [searchQuad, searchHyphUnd, searchDotDigitsDot, searchAlnumRun30]

/-- `re.match(r'^\d+\.\d+\.\d+\.\d+$', s)`: anchored dotted-quad match of the
whole string. -/
def isDottedQuad (l : List Char) : Bool :=
  (do
    let r ← parseDigits1 l
    let r ← expectDot r
    let r ← parseDigits1 r
    let r ← expectDot r
    let r ← parseDigits1 r
    let r ← expectDot r
    let r ← parseDigits1 r
    if r = [] then some () else none).isSome

/-! ## Entropy (`calculate_entropy`) -/

/-- Python `dict.fromkeys(list(string))`: the distinct characters of the
list in order of first occurrence.  The first argument accumulates the
characters already seen. -/
def dedupFirst (seen : List Char) : List Char → List Char
  | [] => []
  | c :: t => if seen.contains c then dedupFirst seen t
              else c :: dedupFirst (c :: seen) t

/-- Distinct characters of a list, first occurrence first. -/
def distinctChars (l : List Char) : List Char := dedupFirst [] l

/-- `calculate_entropy`:
`prob = [count(c)/len(s) for c in dict.fromkeys(list(s))]`;
`entropy = -sum(p * log(p) / log(2) for p in prob)`. -/
noncomputable def calculate_entropy (s : String) : ℝ :=
  let l := s.toList
  let prob : List ℝ := (distinctChars l).map (fun c => (l.count c : ℝ) / l.length)
  Neg.neg ((prob.map (fun p => p * Real.log p / Real.log 2)).sum)

/-- Exact decidable characterization of `calculate_entropy s > 4.5`, used so
the scoring pipeline stays executable.  For a non-empty string with distinct
character counts `k` and length `n`, the base-2 entropy exceeds `9/2` iff
`n ^ (2n) > 2 ^ (9n) * prod k ^ (2k)` (see `entropy_gt_45_iff`). -/
def entropyGt45 (s : String) : Bool :=
  let l := s.toList
  let n := l.length
  let counts := (distinctChars l).map fun c => l.count c
  decide (2 ^ (9 * n) * (counts.map fun k => k ^ (2 * k)).prod < n ^ (2 * n))

/-! ## `extract_url_features` -/

/-- The feature record produced by `extract_url_features`.  The source
stores the real-valued `entropy` feature; the only consumer
(`ml_analysis`) uses it solely in the comparison `entropy > 4.5`, which is
stored here as the exact Boolean `entropy_gt_45` (proved equivalent to the
real comparison in `entropy_gt_45_iff`). -/
structure FeatureRecord where
  url_length : Nat
  domain_length : Nat
  path_length : Nat
  query_length : Nat
  subdomain_count : Nat
  tld : String
  dot_count : Nat
  hyphen_count : Nat
  underscore_count : Nat
  at_symbol_count : Nat
  percent_count : Nat
  slash_count : Nat
  question_count : Nat
  equal_count : Nat
  has_https : Nat
  has_http : Nat
  has_www : Nat
  has_ip : Nat
  has_suspicious_keywords : Nat
  entropy_gt_45 : Bool
deriving Repr, DecidableEq

/-- `extract_url_features`. -/
def extract_url_features (url : String) : FeatureRecord :=
  let parsed := urlparse url
  let l := url.toList
  let domain_parts := splitOnChar '.' parsed.netloc.toList
  { url_length := url.length
    domain_length := parsed.netloc.length
    path_length := parsed.path.length
    query_length := parsed.query.length
    subdomain_count :=
      if domain_parts.length > 2 then domain_parts.length - 2 else 0
    tld :=
      if domain_parts.length ≥ 2
      then "." ++ String.mk (joinChar '.' (domain_parts.drop (domain_parts.length - 2)))
      else ""
    dot_count := l.count '.'
    hyphen_count := l.count '-'
    underscore_count := l.count '_'
    at_symbol_count := l.count '@'
    percent_count := l.count '%'
    slash_count := l.count '/'
    question_count := l.count '?'
    equal_count := l.count '='
    has_https := if parsed.scheme = "https" then 1 else 0
    has_http := if parsed.scheme = "http" then 1 else 0
    has_www := if containsSubstring parsed.netloc "www." then 1 else 0
    has_ip := if isDottedQuad parsed.netloc.toList then 1 else 0
    has_suspicious_keywords :=
      if suspicious_keywords.any (fun k => containsSubstring (lowerStr url) (lowerStr k))
      then 1 else 0
    entropy_gt_45 := entropyGt45 url }

/-! ## Blacklist (`load_blacklists`, `check_blacklist`, `add_to_blacklist`)

`self.blacklisted_domains` is a Python set of strings; it is modelled as a
`List String` whose membership is what matters. -/

/-- The built-in seed domains of `load_blacklists`. -/
def common_phishing_domains : List String :=
  ["bit.ly", "tinyurl.com", "t.co", "goo.gl", "ow.ly",
   "phishing-site.com", "fake-login.net", "scam-bank.org"]

/-- `load_blacklists`: the built-in seed list plus the persisted blacklist
rows (the database content is the parameter). -/
def load_blacklists (dbDomains : List String) : List String :=
  common_phishing_domains ++ dbDomains

/-- The in-memory blacklist at startup with an empty database. -/
def initial_blacklist : List String := load_blacklists []

/-- `check_blacklist`: lower-case the netloc; return `True` on an exact
match, else on any dot-suffix match (the source's early `return True`
statements are the disjunction). -/
def check_blacklist (bl : List String) (url : String) : Bool :=
  let domain := lowerStr (urlparse url).netloc
  bl.contains domain ||
    (let parts := splitOnChar '.' domain.toList
     (List.range parts.length).any fun i =>
       bl.contains (String.mk (joinChar '.' (parts.drop i))))

/-- Outcome of `add_to_blacklist`.  `storeOk` below is the persistence
oracle: `false` means `cursor.execute`/`commit` raised.  The source wraps
the whole body in `try/except` and only logs in the `except` branch, so on
store failure the in-memory set is left unchanged and nothing is raised
(`raised` records whether an exception escaped to the caller). -/
structure AddOutcome where
  blacklisted_domains : List String
  raised : Bool
deriving Repr, DecidableEq

/-- `add_to_blacklist(domain, reason)`. -/
def add_to_blacklist (bl : List String) (storeOk : Bool) (domain : String) :
    AddOutcome :=
  if storeOk then
    -- INSERT OR IGNORE, then `self.blacklisted_domains.add(domain)` (set add)
    { blacklisted_domains := if bl.contains domain then bl else bl ++ [domain]
      raised := false }
  else
    -- except branch: `self.logger.error(...)` only
    { blacklisted_domains := bl, raised := false }

/-! ## `heuristic_analysis` -/

/-- The `{score, reasons}` dictionary returned by each scoring stage. -/
structure PartialResult where
  score : Nat
  reasons : List String
deriving Repr, DecidableEq

/-- The `for pattern in suspicious_patterns: ... score += 30; break` loop:
30 points for the first matching pattern, 0 if none matches. -/
def patternLoop : List (List Char → Bool) → List Char → Nat
  | [], _ => 0
  | p :: ps, u => if p u then 30 else patternLoop ps u

/-- The suspicious-pattern rule's contribution inside `heuristic_analysis`. -/
def pattern_rule_score (url : String) : Nat :=
  patternLoop suspicious_patterns url.toList

/-- `heuristic_analysis`. -/
def heuristic_analysis (url : String) : PartialResult :=
  let lenPart : Nat × List String :=
    if url.length > 100 then (20, ["Very long URL"])
    else if url.length < 20 then (10, ["Very short URL (suspicious)"])
    else (0, [])
  let parsed := urlparse url
  let domain := lowerStr parsed.netloc
  let ipPart : Nat × List String :=
    if isDottedQuad domain.toList
    then (50, ["Uses IP address instead of domain"]) else (0, [])
  let tldPart : Nat × List String :=
    if suspicious_tlds.any (fun tld => containsSubstring domain tld)
    then (30, ["Suspicious top-level domain"]) else (0, [])
  let subPart : Nat × List String :=
    if domain.toList.count '.' > 3
    then (25, ["Excessive number of subdomains"]) else (0, [])
  let patScore := pattern_rule_score url
  let patPart : Nat × List String :=
    (patScore, if patScore > 0 then ["Suspicious pattern detected"] else [])
  let httpsPart : Nat × List String :=
    if (["login", "signin", "password"].any fun k =>
          containsSubstring (lowerStr url) k) && !(parsed.scheme = "https")
    then (40, ["Sensitive page without HTTPS"]) else (0, [])
  { score := lenPart.1 + ipPart.1 + tldPart.1 + subPart.1 + patPart.1 + httpsPart.1
    reasons := lenPart.2 ++ ipPart.2 ++ tldPart.2 ++ subPart.2 ++ patPart.2 ++ httpsPart.2 }

/-! ## `ml_analysis` -/

/-- The dictionary returned by `ml_analysis`. -/
structure MLResult where
  risk_score : Nat
  features : FeatureRecord
  confidence : Nat
deriving Repr, DecidableEq

/-- `ml_analysis`. -/
def ml_analysis (url : String) : MLResult :=
  let f := extract_url_features url
  let score :=
    (if f.url_length > 75 then 15 else 0) +
    (if f.domain_length > 50 then 20 else 0) +
    (if f.dot_count > 5 then 10 else 0) +
    (if f.hyphen_count > 3 then 15 else 0) +
    (if f.at_symbol_count > 0 then 25 else 0) +
    (if f.has_https = 0 then 20 else 0) +
    (if f.has_suspicious_keywords = 1 then 30 else 0) +
    (if f.entropy_gt_45 then 25 else 0) +
    (if f.subdomain_count > 2 then 15 else 0) +
    (if suspicious_tlds.contains f.tld then 35 else 0)
  { risk_score := score, features := f, confidence := min (score * 2) 100 }

/-! ## `content_analysis`

The network fetch is an oracle `fetch : Option String`: `some body` is a
successful `requests.get(url, timeout=5, allow_redirects=False)` returning
`body` as `response.text`; `none` is any raised network/timeout/protocol
error, handled by the source's `except` branch. -/

/-- The fixed `suspicious_content` phrase list. -/
def suspicious_content : List String :=
  ["verify your identity", "confirm your account", "update your information",
   "suspended account", "unauthorized access", "security breach"]

/-- `content_analysis`. -/
def content_analysis (fetch : Option String) : PartialResult :=
  match fetch with
  | none => { score := 0, reasons := [] }
  | some body =>
    let content := lowerStr body
    let formPart : Nat × List String :=
      if containsSubstring content "<form" &&
         (["password", "credit card", "ssn", "social security"].any fun f =>
            containsSubstring content f)
      then (40, ["Sensitive form fields detected"]) else (0, [])
    let phrases := suspicious_content.filter fun p => containsSubstring content p
    let phrasePart : Nat × List String :=
      (25 * phrases.length, phrases.map fun p => "Suspicious content: " ++ p)
    let external_links :=
      countOcc "src=\"http".toList content.toList +
      countOcc "href=\"http".toList content.toList
    let extPart : Nat × List String :=
      if external_links > 10 then (20, ["Excessive external resources"]) else (0, [])
    { score := formPart.1 + phrasePart.1 + extPart.1
      reasons := formPart.2 ++ phrasePart.2 ++ extPart.2 }

/-! ## `analyze_url` -/

/-- The results dictionary built by `analyze_url` (`timestamp` omitted:
wall-clock time).  `is_phishing` keeps the source's nullable-Boolean
encoding: `some true` = phishing, `none` = Python `None` = suspicious,
`some false` = clean. -/
structure AnalysisResult where
  url : String
  is_phishing : Option Bool
  risk_score : Nat
  confidence : Nat
  detection_methods : List String
  reasons : List String
deriving Repr, DecidableEq

/-- The initial results dictionary of `analyze_url`. -/
def init_result (url : String) : AnalysisResult :=
  { url := url, is_phishing := some false, risk_score := 0, confidence := 0,
    detection_methods := [], reasons := [] }

/-- The `if self.check_blacklist(url):` block. -/
def blacklist_stage (bl : List String) (r : AnalysisResult) : AnalysisResult :=
  if check_blacklist bl r.url then
    { r with is_phishing := some true
             risk_score := r.risk_score + 80
             detection_methods := r.detection_methods ++ ["blacklist"]
             reasons := r.reasons ++ ["URL found in phishing blacklist"] }
  else r

/-- The heuristic-analysis block of `analyze_url`. -/
def heuristic_stage (r : AnalysisResult) : AnalysisResult :=
  let h := heuristic_analysis r.url
  { r with risk_score := r.risk_score + h.score
           detection_methods :=
             if h.score > 0 then r.detection_methods ++ ["heuristic"]
             else r.detection_methods
           reasons := if h.score > 0 then r.reasons ++ h.reasons else r.reasons }

/-- The machine-learning block of `analyze_url`. -/
def ml_stage (r : AnalysisResult) : AnalysisResult :=
  let m := ml_analysis r.url
  { r with risk_score := r.risk_score + m.risk_score
           confidence := max r.confidence m.confidence
           detection_methods :=
             if m.risk_score > 0 then r.detection_methods ++ ["machine_learning"]
             else r.detection_methods }

/-- The content-analysis block of `analyze_url` (the body of the
`if results['risk_score'] > 30:` gate). -/
def content_stage (fetch : Option String) (r : AnalysisResult) : AnalysisResult :=
  let c := content_analysis fetch
  { r with risk_score := r.risk_score + c.score
           detection_methods :=
             if c.score > 0 then r.detection_methods ++ ["content_analysis"]
             else r.detection_methods
           reasons := if c.score > 0 then r.reasons ++ c.reasons else r.reasons }

/-- The final classification of `analyze_url`: `risk_score >= 60` sets
`is_phishing = True`, `>= 40` sets `None` (suspicious), else `False`. -/
def classify (r : AnalysisResult) : AnalysisResult :=
  if r.risk_score ≥ 60 then { r with is_phishing := some true }
  else if r.risk_score ≥ 40 then { r with is_phishing := none }
  else { r with is_phishing := some false }

/-- `analyze_url` (the `store_analysis` database write at the end absorbs
its own errors and does not alter the returned dictionary, so it is not
modelled). -/
def analyze_url (bl : List String) (fetch : Option String) (url : String) :
    AnalysisResult :=
  let r0 := init_result url
  let r1 := blacklist_stage bl r0
  let r2 := heuristic_stage r1
  let r3 := ml_stage r2
  let r4 := if r3.risk_score > 30 then content_stage fetch r3 else r3
  classify r4

/-- The running aggregate score after the blacklist, heuristic and
feature-based ("machine learning") stages — the quantity the source's
content gate `results['risk_score'] > 30` tests. -/
def running_score (bl : List String) (url : String) : Nat :=
  (if check_blacklist bl url then 80 else 0) +
    (heuristic_analysis url).score + (ml_analysis url).risk_score

/-! ## Flask endpoints (`/analyze`, `/blacklist`) -/

/-- A Flask JSON response: status code plus the fields the handlers set. -/
structure ApiResponse where
  status : Nat
  success : Option Bool
  message : Option String
  error : Option String
deriving Repr, DecidableEq

/-- `POST /analyze`: `data.get('url', '')`; empty URL means 400, otherwise
the detector runs and its result is returned with status 200. -/
def analyze_endpoint (bl : List String) (fetch : Option String) (url : String) :
    Nat × Option AnalysisResult :=
  if url = "" then (400, none)
  else (200, some (analyze_url bl fetch url))

/-- `POST /blacklist`: `data.get('domain', '')`; empty domain means 400.
Otherwise `add_to_blacklist` runs; since it absorbs every persistence
error (its `raised` field is always `false`), the handler's `except`
branch (status 500) is unreachable and the handler answers
`{'success': True}` unconditionally.  Returns the response and the
detector's in-memory blacklist after the call. -/
def add_blacklist (bl : List String) (storeOk : Bool) (domain : String) :
    ApiResponse × List String :=
  if domain = "" then
    ({ status := 400, success := none, message := none,
       error := some "Domain is required" }, bl)
  else
    let o := add_to_blacklist bl storeOk domain
    if o.raised then
      ({ status := 500, success := none, message := none,
         error := some "error" }, o.blacklisted_domains)
    else
      ({ status := 200, success := some true,
         message := some (domain ++ " added to blacklist"), error := none },
       o.blacklisted_domains)

/-! ## Definitions taken from the spec's words (for refinement comparisons) -/

/-- Modelled from the spec: the claimed "30+ character lowercase-alphanumeric
run" shape — some position starts a run of 30 characters drawn from
`[a-z0-9]` (lowercase letters and digits only). -/
def hasLowercaseRun30 (l : List Char) : Bool :=
  searchAt (fun t =>
    (t.take 30).length = 30 && (t.take 30).all fun c => c.isLower || c.isDigit) l

/-- Modelled from the spec: the claimed "numeric-only subdomain label" shape —
some dot-separated label of the URL's host is non-empty and consists of
digits only. -/
def hasNumericSubdomainLabel (url : String) : Bool :=
  (splitOnChar '.' (urlparse url).netloc.toList).any fun lab =>
    !lab.isEmpty && lab.all Char.isDigit

/-- Modelled from the spec: the disjunction of the four URL shapes exactly as
claim C8 words them (dotted-quad pattern, 2+ consecutive hyphens/underscores,
a numeric-only subdomain label, a 30+ character lowercase-alphanumeric run),
to be compared with the source's `suspicious_patterns` matchers. -/
def claimedPatternShapes (url : String) : Bool :=
  searchQuad url.toList || searchHyphUnd url.toList ||
    hasNumericSubdomainLabel url || hasLowercaseRun30 url.toList

/-- Modelled from the spec: Shannon entropy (base 2) of the string's
character distribution — for each distinct character `c` with relative
frequency `p`, the sum of `-p * log2 p`. -/
noncomputable def shannon_entropy (s : String) : ℝ :=
  let l := s.toList
  ((distinctChars l).map (fun c =>
    Neg.neg (((l.count c : ℝ) / l.length) *
      Real.logb 2 ((l.count c : ℝ) / l.length)))).sum

/-! # Theorems

Helper lemmas characterizing each stage of `analyze_url`, then the claim
theorems. -/

theorem blacklist_stage_url (bl : List String) (r : AnalysisResult) :
    (blacklist_stage bl r).url = r.url := by
  unfold blacklist_stage; split <;> rfl

theorem blacklist_stage_risk (bl : List String) (r : AnalysisResult) :
    (blacklist_stage bl r).risk_score =
      r.risk_score + (if check_blacklist bl r.url then 80 else 0) := by
  unfold blacklist_stage; split <;> simp_all

theorem blacklist_stage_dm (bl : List String) (r : AnalysisResult) :
    (blacklist_stage bl r).detection_methods =
      r.detection_methods ++ (if check_blacklist bl r.url then ["blacklist"] else []) := by
  unfold blacklist_stage; split <;> simp_all

theorem heuristic_stage_url (r : AnalysisResult) :
    (heuristic_stage r).url = r.url := rfl

theorem heuristic_stage_risk (r : AnalysisResult) :
    (heuristic_stage r).risk_score = r.risk_score + (heuristic_analysis r.url).score := rfl

theorem heuristic_stage_dm (r : AnalysisResult) :
    (heuristic_stage r).detection_methods =
      r.detection_methods ++
        (if 0 < (heuristic_analysis r.url).score then ["heuristic"] else []) := by
  unfold heuristic_stage; split <;> simp_all

theorem ml_stage_url (r : AnalysisResult) : (ml_stage r).url = r.url := rfl

theorem ml_stage_risk (r : AnalysisResult) :
    (ml_stage r).risk_score = r.risk_score + (ml_analysis r.url).risk_score := rfl

theorem ml_stage_dm (r : AnalysisResult) :
    (ml_stage r).detection_methods =
      r.detection_methods ++
        (if 0 < (ml_analysis r.url).risk_score then ["machine_learning"] else []) := by
  unfold ml_stage; split <;> simp_all

theorem content_stage_risk (fetch : Option String) (r : AnalysisResult) :
    (content_stage fetch r).risk_score = r.risk_score + (content_analysis fetch).score := rfl

theorem content_stage_dm (fetch : Option String) (r : AnalysisResult) :
    (content_stage fetch r).detection_methods =
      r.detection_methods ++
        (if 0 < (content_analysis fetch).score then ["content_analysis"] else []) := by
  unfold content_stage; split <;> simp_all

theorem classify_risk (r : AnalysisResult) : (classify r).risk_score = r.risk_score := by
  unfold classify; split_ifs <;> rfl

theorem classify_dm (r : AnalysisResult) :
    (classify r).detection_methods = r.detection_methods := by
  unfold classify; split_ifs <;> rfl

theorem classify_verdict (r : AnalysisResult) :
    ((classify r).is_phishing = some true ↔ 60 ≤ r.risk_score) ∧
    ((classify r).is_phishing = none ↔ 40 ≤ r.risk_score ∧ r.risk_score < 60) ∧
    ((classify r).is_phishing = some false ↔ r.risk_score < 40) := by
  unfold classify
  split_ifs <;> refine ⟨?_, ?_, ?_⟩ <;> simp_all
  all_goals omega

/-- The record produced by the first three stages of `analyze_url`. -/
theorem pre3_risk (bl : List String) (url : String) :
    (ml_stage (heuristic_stage (blacklist_stage bl (init_result url)))).risk_score =
      running_score bl url := by
  rw [ml_stage_risk, heuristic_stage_url, heuristic_stage_risk,
    blacklist_stage_url, blacklist_stage_risk]
  simp only [init_result]
  by_cases hb : check_blacklist bl url <;> simp [running_score, hb]

theorem pre3_dm (bl : List String) (url : String) :
    (ml_stage (heuristic_stage (blacklist_stage bl (init_result url)))).detection_methods =
      (if check_blacklist bl url then ["blacklist"] else []) ++
        (if 0 < (heuristic_analysis url).score then ["heuristic"] else []) ++
        (if 0 < (ml_analysis url).risk_score then ["machine_learning"] else []) := by
  rw [ml_stage_dm, heuristic_stage_url, heuristic_stage_dm,
    blacklist_stage_url, blacklist_stage_dm]
  simp only [init_result]
  simp

theorem analyze_url_risk_score (bl : List String) (fetch : Option String) (url : String) :
    (analyze_url bl fetch url).risk_score =
      running_score bl url +
        (if 30 < running_score bl url then (content_analysis fetch).score else 0) := by
  unfold analyze_url
  rw [classify_risk]
  by_cases hc : 30 < running_score bl url
  · rw [if_pos (by rw [pre3_risk]; exact hc), content_stage_risk, pre3_risk, if_pos hc]
  · rw [if_neg (by rw [pre3_risk]; exact hc), pre3_risk, if_neg hc]
    omega

theorem analyze_url_detection_methods (bl : List String) (fetch : Option String)
    (url : String) :
    (analyze_url bl fetch url).detection_methods =
      (if check_blacklist bl url then ["blacklist"] else []) ++
        (if 0 < (heuristic_analysis url).score then ["heuristic"] else []) ++
        (if 0 < (ml_analysis url).risk_score then ["machine_learning"] else []) ++
        (if 30 < running_score bl url ∧ 0 < (content_analysis fetch).score
         then ["content_analysis"] else []) := by
  unfold analyze_url
  rw [classify_dm]
  by_cases hc : 30 < running_score bl url
  · rw [if_pos (by rw [pre3_risk]; exact hc), content_stage_dm, pre3_dm]
    by_cases hs : 0 < (content_analysis fetch).score
    · simp [hs, hc]
    · simp [hs]
  · rw [if_neg (by rw [pre3_risk]; exact hc), pre3_dm]
    simp [hc]

/-- When the running total after the first three stages does not exceed 30,
the content stage is skipped, so the result does not depend on the fetch
oracle at all. -/
theorem analyze_url_fetch_indep (bl : List String) (url : String)
    (h : running_score bl url ≤ 30) (f1 f2 : Option String) :
    analyze_url bl f1 url = analyze_url bl f2 url := by
  simp only [analyze_url]
  rw [if_neg (by rw [pre3_risk]; omega), if_neg (by rw [pre3_risk]; omega)]

/-- C1: for every analyzed URL, the final verdict is determined solely by the
total risk score: `total ≥ 60` yields the phishing verdict
(`is_phishing = True`), `40 ≤ total < 60` yields the suspicious verdict
(`is_phishing = None`), and `total < 40` yields the clean verdict
(`is_phishing = False`) — regardless of blacklist state or fetch outcome. -/
theorem C1_verdict_determined_by_total
    (bl : List String) (fetch : Option String) (url : String) :
    ((analyze_url bl fetch url).is_phishing = some true ↔
      60 ≤ (analyze_url bl fetch url).risk_score) ∧
    ((analyze_url bl fetch url).is_phishing = none ↔
      40 ≤ (analyze_url bl fetch url).risk_score ∧
        (analyze_url bl fetch url).risk_score < 60) ∧
    ((analyze_url bl fetch url).is_phishing = some false ↔
      (analyze_url bl fetch url).risk_score < 40) := by
  unfold analyze_url
  rw [classify_risk]
  exact classify_verdict _

/-- C2: the final `risk_score` is the arithmetic sum of exactly the stage
scores actually invoked (a flat 80 for a blacklist hit, plus the heuristic
score, plus the feature-based score, plus the content score when the gate
opens), and `detection_methods` contains a stage's name iff that stage was
invoked and contributed a score greater than 0. -/
theorem C2_risk_score_is_sum_of_stages
    (bl : List String) (fetch : Option String) (url : String) :
    (analyze_url bl fetch url).risk_score =
      (if check_blacklist bl url then 80 else 0) + (heuristic_analysis url).score +
        (ml_analysis url).risk_score +
        (if 30 < running_score bl url then (content_analysis fetch).score else 0) ∧
    ("blacklist" ∈ (analyze_url bl fetch url).detection_methods ↔
      check_blacklist bl url = true) ∧
    ("heuristic" ∈ (analyze_url bl fetch url).detection_methods ↔
      0 < (heuristic_analysis url).score) ∧
    ("machine_learning" ∈ (analyze_url bl fetch url).detection_methods ↔
      0 < (ml_analysis url).risk_score) ∧
    ("content_analysis" ∈ (analyze_url bl fetch url).detection_methods ↔
      30 < running_score bl url ∧ 0 < (content_analysis fetch).score) := by
  refine ⟨?_, ?_, ?_, ?_, ?_⟩
  · rw [analyze_url_risk_score, running_score]
  all_goals rw [analyze_url_detection_methods]
  · by_cases hb : check_blacklist bl url <;> simp [hb]
  · by_cases hh : 0 < (heuristic_analysis url).score <;> simp [hh]
  · by_cases hm : 0 < (ml_analysis url).risk_score <;> simp [hm]
  · by_cases hg : 30 < running_score bl url ∧ 0 < (content_analysis fetch).score <;>
      simp [hg]

/-- C5: the content-inspection stage is consulted iff the running aggregate
score of the blacklist, heuristic and feature-based stages exceeds 30: above
the gate the fetch outcome contributes its score (and its detection tag iff
that score is positive); at or below the gate the analysis result is
completely independent of the fetch oracle, i.e. no network call can
influence it, and the total equals the running aggregate. -/
theorem C5_content_gate (bl : List String) (url : String) :
    (30 < running_score bl url →
      ∀ fetch, (analyze_url bl fetch url).risk_score =
          running_score bl url + (content_analysis fetch).score ∧
        ("content_analysis" ∈ (analyze_url bl fetch url).detection_methods ↔
          0 < (content_analysis fetch).score)) ∧
    (running_score bl url ≤ 30 →
      (∀ f1 f2, analyze_url bl f1 url = analyze_url bl f2 url) ∧
      ∀ fetch, (analyze_url bl fetch url).risk_score = running_score bl url ∧
        "content_analysis" ∉ (analyze_url bl fetch url).detection_methods) := by
  constructor
  · intro hgate fetch
    constructor
    · rw [analyze_url_risk_score, if_pos hgate]
    · rw [analyze_url_detection_methods]
      by_cases hs : 0 < (content_analysis fetch).score <;> simp [hs, hgate]
  · intro hgate
    refine ⟨analyze_url_fetch_indep bl url hgate, fun fetch => ⟨?_, ?_⟩⟩
    · rw [analyze_url_risk_score, if_neg (by omega)]
      omega
    · rw [analyze_url_detection_methods]
      have hg : ¬(30 < running_score bl url ∧ 0 < (content_analysis fetch).score) :=
        fun h => absurd h.1 (by omega)
      rw [if_neg hg]
      split_ifs <;> simp

/-- C5 witness: at a concrete URL whose running aggregate is below the gate,
the result is fetch-independent and equals the running aggregate; the
hypotheses of `C5_content_gate` are discharged by evaluation. -/
theorem C5_content_gate_witness :
    analyze_url [] none "http://example.org/ab" =
      analyze_url [] (some "<form>password</form>") "http://example.org/ab" ∧
    (analyze_url [] none "http://example.org/ab").risk_score =
      running_score [] "http://example.org/ab" :=
  ⟨((C5_content_gate [] "http://example.org/ab").2 (by decide)).1 none
      (some "<form>password</form>"),
   (((C5_content_gate [] "http://example.org/ab").2 (by decide)).2 none).1⟩

/-- C6: a failed content fetch (any raised network/timeout/protocol error,
the `none` oracle) yields the zero `PartialResult` `{score := 0, reasons := []}`,
and the overall analysis still completes with exactly the running aggregate
score and no `content_analysis` tag — the failure is absorbed, never
propagated. -/
theorem C6_fetch_failure_absorbed :
    content_analysis none = { score := 0, reasons := [] } ∧
    ∀ (bl : List String) (url : String),
      (analyze_url bl none url).risk_score = running_score bl url ∧
      "content_analysis" ∉ (analyze_url bl none url).detection_methods := by
  refine ⟨rfl, fun bl url => ⟨?_, ?_⟩⟩
  · rw [analyze_url_risk_score]
    simp [content_analysis]
  · rw [analyze_url_detection_methods]
    simp [content_analysis]

/-- C3 counterexample: the syntactically unparseable input `"::"` (no
scheme, no host) is not rejected: the `/analyze` handler answers 200 (not a
client error), every stage runs on it, and it is scored 30 — the clean
verdict — with no error of any kind. -/
theorem C3_counterexample_malformed_scored_clean :
    (analyze_endpoint initial_blacklist none "::").1 = 200 ∧
    (analyze_url initial_blacklist none "::").is_phishing = some false ∧
    (analyze_url initial_blacklist none "::").risk_score = 30 := by
  decide

/-- C3 amended: there is no fail-fast path for malformed URLs — no
`InputError` exists; `analyze_url` is total and runs the full pipeline on
any string.  For the unparseable input `"::"` the analysis returns
normally with risk score 30 and the clean verdict, independent of the
fetch oracle (so also without any network access), and the HTTP handler
reports 200. -/
theorem C3_amended_malformed_not_rejected (fetch : Option String) :
    (analyze_endpoint initial_blacklist fetch "::").1 = 200 ∧
    (analyze_url initial_blacklist fetch "::").is_phishing = some false ∧
    (analyze_url initial_blacklist fetch "::").risk_score = 30 := by
  have h : analyze_url initial_blacklist fetch "::" =
      analyze_url initial_blacklist none "::" :=
    analyze_url_fetch_indep initial_blacklist "::" (by decide) fetch none
  refine ⟨?_, ?_, ?_⟩
  · simp [analyze_endpoint]
  · rw [h]; decide
  · rw [h]; decide

/-- C7 counterexample: when the persistence store fails on a blacklist add
(`storeOk = false`), the operation still reports success to the caller: the
`/blacklist` handler answers 200 `{'success': True}`, nothing is raised, and
the in-memory set is silently left unchanged. -/
theorem C7_counterexample_store_failure_reported_as_success :
    (add_blacklist ["a.com"] false "evil.com").1.status = 200 ∧
    (add_blacklist ["a.com"] false "evil.com").1.success = some true ∧
    (add_to_blacklist ["a.com"] false "evil.com").raised = false ∧
    (add_to_blacklist ["a.com"] false "evil.com").blacklisted_domains = ["a.com"] := by
  decide

/-- C7 amended: persistence failures on blacklist add are absorbed, not
surfaced: `add_to_blacklist` catches the store error (nothing reaches the
caller), leaves the in-memory set unchanged, and the `/blacklist` endpoint
still reports 200 `{'success': True}` for any non-empty domain. -/
theorem C7_amended_store_failure_absorbed (bl : List String) (domain : String) :
    (add_to_blacklist bl false domain).raised = false ∧
    (add_to_blacklist bl false domain).blacklisted_domains = bl ∧
    (domain ≠ "" → (add_blacklist bl false domain).1.status = 200 ∧
      (add_blacklist bl false domain).1.success = some true) := by
  refine ⟨rfl, rfl, fun h => ?_⟩
  rw [add_blacklist, if_neg h]
  exact ⟨rfl, rfl⟩

/-- C7 amended witness at a concrete store-failing call. -/
theorem C7_amended_store_failure_absorbed_witness :
    (add_blacklist ["b.org"] false "bad.io").1.success = some true :=
  ((C7_amended_store_failure_absorbed ["b.org"] "bad.io").2.2 (by decide)).2

/-- C8 counterexample: the URL `"AAAAAAAAAAAAAAAAAAAAAAAAAAAAAA/x.12.y"`
matches none of the claim's four shapes (its 30-character run is uppercase,
so not a lowercase-alphanumeric run; its host is empty, so there is no
numeric-only subdomain label; no dotted quad; no double hyphen/underscore),
yet the heuristic suspicious-pattern rule scores it +30, because the source
applies its regexes with `re.IGNORECASE` and searches `\.\d+\.` anywhere in
the URL (here in the path `.12.`). -/
theorem C8_counterexample_pattern_rule :
    pattern_rule_score "AAAAAAAAAAAAAAAAAAAAAAAAAAAAAA/x.12.y" = 30 ∧
    claimedPatternShapes "AAAAAAAAAAAAAAAAAAAAAAAAAAAAAA/x.12.y" = false := by
  decide

/-- C8 amended: the heuristic suspicious-pattern rule contributes exactly
+30, once (first match wins), iff the URL matches at least one of the four
source regexes under `re.IGNORECASE`: a dotted-quad digit pattern anywhere
in the URL, 2+ consecutive hyphens/underscores, a `.digits.` substring
anywhere in the URL, or a 30+ character alphanumeric run of either case;
otherwise it contributes 0. -/
theorem C8_amended_pattern_rule (url : String) :
    (pattern_rule_score url = 30 ∨ pattern_rule_score url = 0) ∧
    (pattern_rule_score url = 30 ↔
      (searchQuad url.toList || searchHyphUnd url.toList ||
        searchDotDigitsDot url.toList || searchAlnumRun30 url.toList) = true) ∧
    (pattern_rule_score url = 0 ↔
      (searchQuad url.toList || searchHyphUnd url.toList ||
        searchDotDigitsDot url.toList || searchAlnumRun30 url.toList) = false) := by
  rw [pattern_rule_score, suspicious_patterns]
  simp only [patternLoop]
  split_ifs with h1 h2 h3 h4 <;> simp_all

/-- C4: the blacklist check lower-cases the host (the parsed netloc) and
returns true iff the exact host or some right-aligned suffix of the
dot-split host is in the blacklisted-domain set; in particular blacklisting
`example.com` flags `sub.example.com` and `a.b.example.com`, while
blacklisting `evil.example.com` does not flag `example.com`. -/
theorem C4_blacklist_suffix_matching :
    (∀ (bl : List String) (url : String),
      (check_blacklist bl url = true ↔
        lowerStr (urlparse url).netloc ∈ bl ∨
          ∃ i < (splitOnChar '.' (lowerStr (urlparse url).netloc).toList).length,
            String.mk (joinChar '.'
              ((splitOnChar '.' (lowerStr (urlparse url).netloc).toList).drop i)) ∈ bl)) ∧
    check_blacklist ["example.com"] "http://sub.example.com/" = true ∧
    check_blacklist ["example.com"] "http://a.b.example.com/" = true ∧
    check_blacklist ["evil.example.com"] "http://example.com/" = false := by
  refine ⟨fun bl url => ?_, by decide, by decide, by decide⟩
  rw [check_blacklist]
  simp only [List.contains, List.elem_eq_mem, Bool.or_eq_true, decide_eq_true_eq,
    List.any_eq_true, List.mem_range]


/-! ## Character-case lemmas for C10 -/

theorem isUpper_iff_toNat (c : Char) : c.isUpper = true ↔ 65 ≤ c.toNat ∧ c.toNat ≤ 90 := by
  have h65 : ((65 : UInt32) ≤ c.val) ↔ 65 ≤ c.toNat := by
    rw [UInt32.le_def, BitVec.le_def]
    have h : ((65 : UInt32).toBitVec).toNat = 65 := by decide
    rw [h]
    rfl
  have h90 : (c.val ≤ (90 : UInt32)) ↔ c.toNat ≤ 90 := by
    rw [UInt32.le_def, BitVec.le_def]
    have h : ((90 : UInt32).toBitVec).toNat = 90 := by decide
    rw [h]
    rfl
  simp only [Char.isUpper, Bool.and_eq_true, decide_eq_true_eq, ge_iff_le, h65, h90]

theorem toLower_toNat_of_upper {c : Char} (h : 65 ≤ c.toNat ∧ c.toNat ≤ 90) :
    (Char.toLower c).toNat = c.toNat + 32 := by
  unfold Char.toLower
  rw [if_pos h]
  have hv : (c.toNat + 32).isValidChar := Or.inl (by omega)
  rw [Char.ofNat, dif_pos hv]
  rfl

theorem isUpper_toLower (c : Char) : (Char.toLower c).isUpper = false := by
  by_cases h : 65 ≤ c.toNat ∧ c.toNat ≤ 90
  · have ht := toLower_toNat_of_upper h
    rw [Bool.eq_false_iff]
    intro hu
    rw [isUpper_iff_toNat] at hu
    omega
  · have he : Char.toLower c = c := by
      unfold Char.toLower
      rw [if_neg h]
    rw [he, Bool.eq_false_iff]
    intro hu
    rw [isUpper_iff_toNat] at hu
    exact h hu

theorem lowerStr_no_upper (s : String) : ∀ c ∈ (lowerStr s).toList, c.isUpper = false := by
  intro c hc
  rw [lowerStr] at hc
  simp only [String.toList] at hc
  obtain ⟨d, _, rfl⟩ := List.mem_map.mp hc
  exact isUpper_toLower d

theorem splitOnChar_ne_nil (sep : Char) (l : List Char) : splitOnChar sep l ≠ [] := by
  cases l with
  | nil => simp [splitOnChar]
  | cons c t =>
    rw [splitOnChar]
    split
    · simp
    · split <;> simp

theorem mem_of_mem_splitOnChar (sep : Char) (l : List Char) :
    ∀ p ∈ splitOnChar sep l, ∀ c ∈ p, c ∈ l := by
  induction l with
  | nil =>
    intro p hp c hc
    simp [splitOnChar] at hp
    subst hp
    simp at hc
  | cons a t ih =>
    intro p hp c hc
    rw [splitOnChar] at hp
    by_cases ha : a = sep
    · rw [if_pos ha] at hp
      rcases List.mem_cons.mp hp with h | h
      · subst h; simp at hc
      · exact List.mem_cons_of_mem a (ih p h c hc)
    · rw [if_neg ha] at hp
      rcases hrec : splitOnChar sep t with _ | ⟨h0, r⟩
      · exact absurd hrec (splitOnChar_ne_nil sep t)
      · rw [hrec] at hp
        rcases List.mem_cons.mp hp with h | h
        · subst h
          rcases List.mem_cons.mp hc with h2 | h2
          · subst h2; exact List.mem_cons_self c t
          · exact List.mem_cons_of_mem a
              (ih h0 (by rw [hrec]; exact List.mem_cons_self h0 r) c h2)
        · exact List.mem_cons_of_mem a
            (ih p (by rw [hrec]; exact List.mem_cons_of_mem h0 h) c hc)

theorem mem_joinChar (sep : Char) (ps : List (List Char)) :
    ∀ c ∈ joinChar sep ps, c = sep ∨ ∃ p ∈ ps, c ∈ p := by
  induction ps with
  | nil => intro c hc; simp [joinChar] at hc
  | cons p rest ih =>
    intro c hc
    cases rest with
    | nil =>
      right
      exact ⟨p, List.mem_cons_self p [], by simpa [joinChar] using hc⟩
    | cons q r =>
      have hj : joinChar sep (p :: q :: r) = p ++ sep :: joinChar sep (q :: r) := rfl
      rw [hj] at hc
      rcases List.mem_append.mp hc with h | h
      · exact Or.inr ⟨p, List.mem_cons_self p _, h⟩
      · rcases List.mem_cons.mp h with h2 | h2
        · exact Or.inl h2
        · rcases ih c h2 with h3 | ⟨p2, hp2, hcp2⟩
          · exact Or.inl h3
          · exact Or.inr ⟨p2, List.mem_cons_of_mem p hp2, hcp2⟩

theorem ne_of_upper_of_no_upper {d q : String}
    (hd : ∃ c ∈ d.toList, c.isUpper = true)
    (hq : ∀ c ∈ q.toList, c.isUpper = false) : q ≠ d := by
  rintro rfl
  obtain ⟨c, hc, hu⟩ := hd
  rw [hq c hc] at hu
  exact Bool.false_ne_true hu

theorem contains_append_singleton_of_ne {bl : List String} {d q : String} (h : q ≠ d) :
    (bl ++ [d]).contains q = bl.contains q := by
  simp [List.contains, List.elem_eq_mem, List.mem_append, h]

theorem any_congr_mem {α : Type} {l : List α} {f g : α → Bool}
    (h : ∀ a ∈ l, f a = g a) : l.any f = l.any g := by
  induction l with
  | nil => rfl
  | cons a t ih =>
    simp only [List.any_cons, h a (List.mem_cons_self a t),
      ih fun b hb => h b (List.mem_cons_of_mem a hb)]

/-- Appending a domain that contains an uppercase letter to the blacklist
never changes any `check_blacklist` result: every string the check compares
against the set is built from the lower-cased netloc (and dots), so it
cannot equal the stored mixed-case domain. -/
theorem check_blacklist_append_upper (d : String)
    (hd : ∃ c ∈ d.toList, c.isUpper = true) (bl : List String) (url : String) :
    check_blacklist (bl ++ [d]) url = check_blacklist bl url := by
  have hdom : ∀ c ∈ (lowerStr (urlparse url).netloc).toList, c.isUpper = false :=
    lowerStr_no_upper _
  have hsuffix : ∀ i, ∀ c ∈ (String.mk (joinChar '.'
      ((splitOnChar '.' (lowerStr (urlparse url).netloc).toList).drop i))).toList,
      c.isUpper = false := by
    intro i c hc
    have hc2 : c ∈ joinChar '.'
        ((splitOnChar '.' (lowerStr (urlparse url).netloc).toList).drop i) := hc
    rcases mem_joinChar '.' _ c hc2 with h | ⟨p, hp, hcp⟩
    · subst h; decide
    · exact hdom c (mem_of_mem_splitOnChar '.' _ p
        (List.drop_subset i _ hp) c hcp)
  rw [check_blacklist, check_blacklist]
  simp only []
  congr 1
  · exact contains_append_singleton_of_ne (ne_of_upper_of_no_upper hd hdom)
  · apply any_congr_mem
    intro i _
    exact contains_append_singleton_of_ne (ne_of_upper_of_no_upper hd (hsuffix i))

/-- C10: `add_to_blacklist` stores the domain string verbatim while
`check_blacklist` lower-cases the URL's host before comparing, so adding a
domain that contains at least one uppercase letter never changes any
blacklist-check outcome — in particular a URL whose host equals that domain
up to letter case is still not flagged (only all-lowercase domains can ever
match). -/
theorem C10_uppercase_domains_never_match :
    (∀ (d : String), (∃ c ∈ d.toList, c.isUpper = true) →
      ∀ (bl : List String) (storeOk : Bool) (url : String),
        check_blacklist ((add_to_blacklist bl storeOk d).blacklisted_domains) url =
          check_blacklist bl url) ∧
    check_blacklist
      ((add_to_blacklist [] true "Example.com").blacklisted_domains)
      "http://example.com/" = false := by
  constructor
  · intro d hd bl storeOk url
    cases storeOk with
    | false => rfl
    | true =>
      by_cases hmem : d ∈ bl
      · have h : (add_to_blacklist bl true d).blacklisted_domains = bl := by
          simp [add_to_blacklist, List.contains, List.elem_eq_mem, hmem]
        rw [h]
      · have h : (add_to_blacklist bl true d).blacklisted_domains = bl ++ [d] := by
          simp [add_to_blacklist, List.contains, List.elem_eq_mem, hmem]
        rw [h]
        exact check_blacklist_append_upper d hd bl url
  · decide

/-- C10 witness: adding the mixed-case domain `"Example.com"` leaves a
concrete blacklist check unchanged; the uppercase-letter hypothesis is
discharged by evaluation. -/
theorem C10_uppercase_domains_never_match_witness :
    check_blacklist ((add_to_blacklist ["x.org"] true "Example.com").blacklisted_domains)
        "http://sub.example.com/" =
      check_blacklist ["x.org"] "http://sub.example.com/" :=
  C10_uppercase_domains_never_match.1 "Example.com" (by decide) ["x.org"] true
    "http://sub.example.com/"


/-! ## Entropy lemmas for C9 -/

theorem neg_sum_map {α : Type} (l : List α) (f : α → ℝ) :
    Neg.neg ((l.map f).sum) = (l.map fun a => Neg.neg (f a)).sum := by
  induction l with
  | nil => simp
  | cons a t ih =>
    simp [neg_add, ih, add_comm]

theorem calculate_entropy_eq_shannon (s : String) :
    calculate_entropy s = shannon_entropy s := by
  rw [calculate_entropy, shannon_entropy]
  simp only [List.map_map]
  rw [neg_sum_map]
  apply congrArg List.sum
  apply List.map_congr_left
  intro c _
  simp only [Function.comp]
  rw [Real.logb, mul_div_assoc]

theorem dedupFirst_eq_self (l : List Char) (hn : l.Nodup) :
    ∀ seen : List Char, (∀ c ∈ l, c ∉ seen) → dedupFirst seen l = l := by
  induction l with
  | nil => intro seen _; rfl
  | cons a t ih =>
    intro seen hs
    rw [dedupFirst]
    rw [if_neg (by
      intro hc
      exact hs a (List.mem_cons_self a t)
        (by simpa [List.contains, List.elem_eq_mem] using hc))]
    congr 1
    exact ih (List.Nodup.of_cons hn) (a :: seen) (fun c hc => by
      intro hmem
      rcases List.mem_cons.mp hmem with h | h
      · subst h
        exact (List.nodup_cons.mp hn).1 hc
      · exact hs c (List.mem_cons_of_mem a hc) h)

theorem distinctChars_eq_self (l : List Char) (hn : l.Nodup) : distinctChars l = l :=
  dedupFirst_eq_self l hn [] (by simp)

theorem calculate_entropy_of_nodup_four (s : String) (h4 : s.length = 4)
    (hnd : s.toList.Nodup) : calculate_entropy s = 2 := by
  have hlen : s.toList.length = 4 := h4
  rw [calculate_entropy]
  simp only [List.map_map]
  rw [distinctChars_eq_self s.toList hnd]
  have hmap : s.toList.map
        ((fun p => p * Real.log p / Real.log 2) ∘
          fun c => (s.toList.count c : ℝ) / s.toList.length) =
      s.toList.map (fun _ => (1 / 4 : ℝ) * Real.log (1 / 4) / Real.log 2) := by
    apply List.map_congr_left
    intro c hc
    simp only [Function.comp]
    rw [List.count_eq_one_of_mem hnd hc, hlen]
    norm_num
  rw [hmap, List.map_const', List.sum_replicate, hlen]
  have hlog2 : Real.log 2 ≠ 0 := ne_of_gt (Real.log_pos (by norm_num))
  have hquarter : Real.log (1 / 4 : ℝ) = -(2 * Real.log 2) := by
    rw [one_div, Real.log_inv]
    have h : (4 : ℝ) = 2 ^ 2 := by norm_num
    rw [h, Real.log_pow]
    push_cast
    ring
  rw [hquarter, nsmul_eq_mul]
  push_cast
  field_simp [hlog2]
  ring

theorem calculate_entropy_aaaa : calculate_entropy "aaaa" = 0 := by
  have hd : distinctChars "aaaa".toList = ['a'] := rfl
  have hc : "aaaa".toList.count 'a' = 4 := rfl
  have hn : "aaaa".toList.length = 4 := rfl
  simp only [calculate_entropy, hd, hc, hn, List.map_cons, List.map_nil,
    List.sum_cons, List.sum_nil]
  norm_num [Real.log_one]

/-- C9: `calculate_entropy` computes the base-2 Shannon entropy of the
string's character distribution; `"aaaa"` has entropy 0, and every
4-character string with 4 distinct characters has entropy exactly 2. -/
theorem C9_entropy_is_shannon :
    (∀ s : String, s ≠ "" → calculate_entropy s = shannon_entropy s) ∧
    calculate_entropy "aaaa" = 0 ∧
    (∀ s : String, s.length = 4 → s.toList.Nodup → calculate_entropy s = 2) :=
  ⟨fun s _ => calculate_entropy_eq_shannon s, calculate_entropy_aaaa,
   calculate_entropy_of_nodup_four⟩

/-- C9 witness at concrete strings. -/
theorem C9_entropy_is_shannon_witness :
    calculate_entropy "ab" = shannon_entropy "ab" ∧ calculate_entropy "abcd" = 2 :=
  ⟨C9_entropy_is_shannon.1 "ab" (by decide),
   C9_entropy_is_shannon.2.2 "abcd" (by decide) (by decide)⟩


/-! ## Exactness of the `entropyGt45` test -/

theorem mem_dedupFirst (l : List Char) : ∀ (seen : List Char) (c : Char),
    c ∈ dedupFirst seen l ↔ c ∈ l ∧ c ∉ seen := by
  induction l with
  | nil => intro seen c; simp [dedupFirst]
  | cons a t ih =>
    intro seen c
    rw [dedupFirst]
    by_cases ha : seen.contains a
    · rw [if_pos ha]
      rw [ih seen c]
      have haseen : a ∈ seen := by simpa [List.contains, List.elem_eq_mem] using ha
      constructor
      · rintro ⟨h1, h2⟩; exact ⟨List.mem_cons_of_mem a h1, h2⟩
      · rintro ⟨h1, h2⟩
        rcases List.mem_cons.mp h1 with h | h
        · subst h; exact absurd haseen h2
        · exact ⟨h, h2⟩
    · rw [if_neg ha]
      have haseen : a ∉ seen := by simpa [List.contains, List.elem_eq_mem] using ha
      constructor
      · intro h
        rcases List.mem_cons.mp h with h | h
        · subst h; exact ⟨List.mem_cons_self c t, haseen⟩
        · rw [ih (a :: seen) c] at h
          refine ⟨List.mem_cons_of_mem a h.1, fun hc => h.2 (List.mem_cons_of_mem a hc)⟩
      · rintro ⟨h1, h2⟩
        by_cases hca : c = a
        · subst hca; exact List.mem_cons_self c _
        · rcases List.mem_cons.mp h1 with h | h
          · exact absurd h hca
          · refine List.mem_cons_of_mem a ((ih (a :: seen) c).mpr ⟨h, ?_⟩)
            intro hmem
            rcases List.mem_cons.mp hmem with h3 | h3
            · exact hca h3
            · exact h2 h3

theorem mem_distinctChars (l : List Char) (c : Char) :
    c ∈ distinctChars l ↔ c ∈ l := by
  rw [distinctChars, mem_dedupFirst]
  simp

theorem dedupFirst_nodup (l : List Char) : ∀ seen, (dedupFirst seen l).Nodup := by
  induction l with
  | nil => intro seen; exact List.nodup_nil
  | cons a t ih =>
    intro seen
    rw [dedupFirst]
    by_cases ha : seen.contains a
    · rw [if_pos ha]; exact ih seen
    · rw [if_neg ha]
      refine List.nodup_cons.mpr ⟨?_, ih (a :: seen)⟩
      rw [mem_dedupFirst]
      rintro ⟨_, h2⟩
      exact h2 (List.mem_cons_self a seen)

theorem distinctChars_nodup (l : List Char) : (distinctChars l).Nodup :=
  dedupFirst_nodup l []

theorem distinctChars_toFinset (l : List Char) :
    (distinctChars l).toFinset = l.toFinset := by
  ext c
  simp [mem_distinctChars]

/-- The counts of the distinct characters of a list add up to its length. -/
theorem sum_counts_distinct (l : List Char) :
    ((distinctChars l).map (fun c => l.count c)).sum = l.length := by
  rw [← List.sum_toFinset _ (distinctChars_nodup l), distinctChars_toFinset,
    List.sum_toFinset_count_eq_length]

theorem sum_map_div {α : Type} (l : List α) (f : α → ℝ) (C : ℝ) :
    (l.map (fun a => f a / C)).sum = (l.map f).sum / C := by
  induction l with
  | nil => simp
  | cons a t ih => simp [ih, add_div]

theorem sum_map_sub {α : Type} (l : List α) (f g : α → ℝ) :
    (l.map (fun a => f a - g a)).sum = (l.map f).sum - (l.map g).sum := by
  induction l with
  | nil => simp
  | cons a t ih =>
    simp only [List.map_cons, List.sum_cons, ih]
    ring

theorem log_prod_list (xs : List ℝ) (hx : ∀ x ∈ xs, 0 < x) :
    Real.log xs.prod = (xs.map Real.log).sum := by
  induction xs with
  | nil => simp
  | cons a t ih =>
    simp only [List.prod_cons, List.map_cons, List.sum_cons]
    rw [Real.log_mul (ne_of_gt (hx a (List.mem_cons_self a t)))
      (ne_of_gt (List.prod_pos fun x hxt => hx x (List.mem_cons_of_mem a hxt)))]
    rw [ih fun x hxt => hx x (List.mem_cons_of_mem a hxt)]

theorem cast_prod_pow_list (L : List ℕ) :
    (((L.map fun (k : ℕ) => k ^ (2 * k)).prod : ℕ) : ℝ) =
      (L.map fun (k : ℕ) => (k : ℝ) ^ (2 * k)).prod := by
  induction L with
  | nil => simp
  | cons a t ih =>
    simp only [List.map_cons, List.prod_cons, Nat.cast_mul, Nat.cast_pow, ih]

theorem sum_map_two_mul_log (L : List ℕ) :
    (L.map fun (k : ℕ) => (2 * k : ℝ) * Real.log k).sum =
      2 * (L.map fun (k : ℕ) => (k : ℝ) * Real.log k).sum := by
  induction L with
  | nil => simp
  | cons a t ih =>
    simp only [List.map_cons, List.sum_cons, ih]
    ring

/-- Core arithmetic equivalence behind `entropyGt45`: for positive counts `L`
summing to `n`, the integer test `2 ^ (9 n) * prod k ^ (2 k) < n ^ (2 n)`
holds iff the entropy expression `(n log n - sum k log k) / (n log 2)`
exceeds `9/2`. -/
theorem entropy_list_iff (n : ℕ) (hn : 0 < n) (L : List ℕ)
    (hL : ∀ k ∈ L, 0 < k) :
    ((2 : ℕ) ^ (9 * n) * (L.map fun (k : ℕ) => k ^ (2 * k)).prod < n ^ (2 * n)) ↔
      (9 : ℝ) / 2 <
        ((n : ℝ) * Real.log n - (L.map fun (k : ℕ) => (k : ℝ) * Real.log k).sum) /
          ((n : ℝ) * Real.log 2) := by
  have hnR : (0 : ℝ) < (n : ℝ) := by exact_mod_cast hn
  have hlog2 : (0 : ℝ) < Real.log 2 := Real.log_pos (by norm_num)
  have hden : (0 : ℝ) < (n : ℝ) * Real.log 2 := mul_pos hnR hlog2
  rw [lt_div_iff₀ hden]
  have hcast : ((2 : ℕ) ^ (9 * n) * (L.map fun (k : ℕ) => k ^ (2 * k)).prod < n ^ (2 * n)) ↔
      ((2 : ℝ) ^ (9 * n) * (L.map fun (k : ℕ) => (k : ℝ) ^ (2 * k)).prod <
        (n : ℝ) ^ (2 * n)) := by
    rw [← Nat.cast_lt (α := ℝ), Nat.cast_mul, cast_prod_pow_list]
    push_cast
    rfl
  rw [hcast]
  have hprodpos : (0 : ℝ) < (L.map fun (k : ℕ) => (k : ℝ) ^ (2 * k)).prod := by
    apply List.prod_pos
    intro x hx
    obtain ⟨k, hk, rfl⟩ := List.mem_map.mp hx
    have hkR : (0 : ℝ) < (k : ℝ) := by exact_mod_cast hL k hk
    positivity
  have hlhspos : (0 : ℝ) <
      (2 : ℝ) ^ (9 * n) * (L.map fun (k : ℕ) => (k : ℝ) ^ (2 * k)).prod := by
    positivity
  have hrhspos : (0 : ℝ) < (n : ℝ) ^ (2 * n) := by positivity
  rw [← Real.log_lt_log_iff hlhspos hrhspos]
  rw [Real.log_mul (ne_of_gt (by positivity)) (ne_of_gt hprodpos)]
  rw [Real.log_pow, Real.log_pow]
  rw [log_prod_list _ (fun x hx => by
    obtain ⟨k, hk, rfl⟩ := List.mem_map.mp hx
    have hkR : (0 : ℝ) < (k : ℝ) := by exact_mod_cast hL k hk
    positivity)]
  rw [List.map_map]
  have hmap : (L.map (Real.log ∘ fun (k : ℕ) => (k : ℝ) ^ (2 * k))).sum =
      (L.map fun (k : ℕ) => (2 * k : ℝ) * Real.log k).sum := by
    apply congrArg List.sum
    apply List.map_congr_left
    intro k _
    simp only [Function.comp]
    rw [Real.log_pow]
    push_cast
    ring
  rw [hmap, sum_map_two_mul_log]
  push_cast
  constructor <;> intro h <;> nlinarith [h]


/-- `calculate_entropy` as a single quotient, for a non-empty string:
`(n log n - sum over distinct c of count(c) log count(c)) / (n log 2)`. -/
theorem calculate_entropy_eq_quotient (s : String) (hne : s.toList ≠ []) :
    calculate_entropy s =
      ((s.toList.length : ℝ) * Real.log (s.toList.length) -
        ((distinctChars s.toList).map (fun c =>
          (s.toList.count c : ℝ) * Real.log (s.toList.count c))).sum) /
        ((s.toList.length : ℝ) * Real.log 2) := by
  have hn : 0 < s.toList.length := List.length_pos.mpr hne
  have hnR : (0 : ℝ) < (s.toList.length : ℝ) := by exact_mod_cast hn
  have hlog2R : (0 : ℝ) < Real.log 2 := Real.log_pos (by norm_num)
  simp only [calculate_entropy, List.map_map]
  rw [List.map_congr_left (g := fun c =>
      ((s.toList.count c : ℝ) * Real.log (s.toList.count c) -
        (s.toList.count c : ℝ) * Real.log (s.toList.length)) /
        ((s.toList.length : ℝ) * Real.log 2)) ?_]
  · rw [sum_map_div, sum_map_sub, List.sum_map_mul_right]
    have hcast : (distinctChars s.toList).map (fun c => (s.toList.count c : ℝ)) =
        ((distinctChars s.toList).map (fun c => s.toList.count c)).map
          (fun k : ℕ => (k : ℝ)) := by
      rw [List.map_map]
      rfl
    rw [hcast, ← Nat.cast_list_sum, sum_counts_distinct]
    rw [← neg_div, neg_sub]
  · intro c hc
    have hkpos : 0 < s.toList.count c :=
      List.count_pos_iff.mpr ((mem_distinctChars s.toList c).mp hc)
    have hkR : (0 : ℝ) < (s.toList.count c : ℝ) := by exact_mod_cast hkpos
    simp only [Function.comp]
    rw [Real.log_div (ne_of_gt hkR) (ne_of_gt hnR)]
    field_simp
    ring


/-- The decidable `entropyGt45` test is exactly the comparison
`calculate_entropy s > 4.5` that `ml_analysis` performs, for every
non-empty string. -/
theorem entropy_gt_45_iff (s : String) (h : s ≠ "") :
    entropyGt45 s = true ↔ (4.5 : ℝ) < calculate_entropy s := by
  have hne : s.toList ≠ [] := by
    intro hc
    apply h
    cases s with
    | mk data => exact congrArg String.mk hc
  have hn : 0 < s.toList.length := List.length_pos.mpr hne
  simp only [entropyGt45, decide_eq_true_eq, List.map_map, Function.comp_def]
  rw [calculate_entropy_eq_quotient s hne]
  have h45 : (4.5 : ℝ) = 9 / 2 := by norm_num
  rw [h45]
  have hmain := entropy_list_iff s.toList.length hn
    ((distinctChars s.toList).map (fun c => s.toList.count c))
    (fun k hk => by
      obtain ⟨c, hc, rfl⟩ := List.mem_map.mp hk
      exact List.count_pos_iff.mpr ((mem_distinctChars s.toList c).mp hc))
  simp only [List.map_map, Function.comp_def] at hmain
  exact hmain

end PhishStop
